import Mathlib

/-!
Verification development for the transaction entry model and validation core
of the chain repository.

The executable Go implementation of the entry model, validation engine and
state application is not part of the available sources; the repository ships
its normative specification in docs/protocol/specifications/entries.md, and
only tests and callers of the implementation are present.  The definitions in
the first part of this file are therefore modelled from that in-repo
specification (entries.md), as noted on each definition.  The definitions for
obfuscateTokenSecret and configure are translated directly from the Go source
file core/core.go.

Modelling conventions: 32-byte hashes and entry IDs are represented as Nat
(0 is the all-zero nil pointer), byte strings as List Nat, the injected
VM-version-1 program validator and the asset-definition hash as explicit
function parameters, and fallible state application as Option (none is the
StateError outcome, so failure leaves the input state untouched: atomicity).
-/

namespace Chain

/-- Modelled from the spec: AssetAmount (entries.md, Data Structures):
a 32-byte AssetID plus an Integer number of units. -/
structure AssetAmount where
  assetID : Nat
  amount : Nat
deriving DecidableEq

/-- Modelled from the spec: Program (entries.md, Data Structures):
a Script byte string and a VM Version integer. -/
structure Program where
  script : List Nat
  vmVersion : Nat
deriving DecidableEq

/-- Modelled from the spec: ValueSource (entries.md): a backward value edge
with a Ref entry-ID, a Value and a Position. -/
structure ValueSource where
  ref : Nat
  value : AssetAmount
  position : Nat
deriving DecidableEq

/-- Modelled from the spec: ValueDestination (entries.md): a forward value
edge with a Ref entry-ID, a Value and a Position. -/
structure ValueDestination where
  ref : Nat
  value : AssetAmount
  position : Nat
deriving DecidableEq

/-- Modelled from the spec: Asset Definition (entries.md): initial block ID,
asset reference data and the issuance program. -/
structure AssetDefinition where
  initialBlockID : Nat
  assetReferenceData : Nat
  issuanceProgram : Program
deriving DecidableEq

/-- Modelled from the spec: TxHeader body (entries.md): Version, Results,
Data, Mintime, Maxtime, ExtHash.  The witness struct is empty. -/
structure TxHeader where
  version : Nat
  results : List Nat
  data : Nat
  mintime : Nat
  maxtime : Nat
  extHash : Nat
deriving DecidableEq

/-- Modelled from the spec: Output body (entries.md): Source, ControlProgram,
Data, ExtHash.  The witness struct is empty. -/
structure Output where
  source : ValueSource
  controlProgram : Program
  data : Nat
  extHash : Nat
deriving DecidableEq

/-- Modelled from the spec: Retirement body (entries.md): Source, Data,
ExtHash.  The witness struct is empty. -/
structure Retirement where
  source : ValueSource
  data : Nat
  extHash : Nat
deriving DecidableEq

/-- Modelled from the spec: Spend (entries.md): body fields SpentOutput,
Data, ExtHash; witness fields Destination and Arguments. -/
structure Spend where
  spentOutput : Nat
  data : Nat
  extHash : Nat
  destination : ValueDestination
  arguments : List (List Nat)
deriving DecidableEq

/-- Modelled from the spec: Issuance (entries.md): body fields Anchor, Value,
Data, ExtHash; witness fields Destination, AssetDefinition and Arguments. -/
structure Issuance where
  anchor : Nat
  value : AssetAmount
  data : Nat
  extHash : Nat
  destination : ValueDestination
  assetDefinition : AssetDefinition
  arguments : List (List Nat)
deriving DecidableEq

/-- Modelled from the spec: Nonce (entries.md): body fields Program,
TimeRange, ExtHash; witness fields Arguments and Issuance. -/
structure Nonce where
  program : Program
  timeRange : Nat
  extHash : Nat
  arguments : List (List Nat)
  issuance : Nat
deriving DecidableEq

/-- Modelled from the spec: TimeRange body (entries.md): Mintime, Maxtime,
ExtHash.  The witness struct is empty. -/
structure TimeRange where
  mintime : Nat
  maxtime : Nat
  extHash : Nat
deriving DecidableEq

/-- Modelled from the spec: Mux (entries.md): body fields Sources, Program,
ExtHash; witness fields Destinations and Arguments. -/
structure Mux where
  sources : List ValueSource
  program : Program
  extHash : Nat
  destinations : List ValueDestination
  arguments : List (List Nat)
deriving DecidableEq

/-- Modelled from the spec: the closed set of entry variants (entries.md,
section Entries). -/
inductive Entry where
  | header : TxHeader → Entry
  | output : Output → Entry
  | retirement : Retirement → Entry
  | spend : Spend → Entry
  | issuance : Issuance → Entry
  | nonce : Nonce → Entry
  | timerange : TimeRange → Entry
  | mux : Mux → Entry
deriving DecidableEq

/-- Modelled from the spec: a Transaction is a TxHeader together with a
mapping from EntryID to Entry. -/
structure Tx where
  header : TxHeader
  entries : List (Nat × Entry)
deriving DecidableEq

/-- Resolve an entry ID in the transaction's entry map. -/
def lookupEntry (tx : Tx) (i : Nat) : Option Entry :=
  tx.entries.lookup i

/-- The ExtHash field of an entry, uniform across the eight variants. -/
def extHashOf : Entry → Nat
  | .header h => h.extHash
  | .output o => o.extHash
  | .retirement r => r.extHash
  | .spend s => s.extHash
  | .issuance i => i.extHash
  | .nonce n => n.extHash
  | .timerange t => t.extHash
  | .mux m => m.extHash

/-! ## Canonical encoding and the entry ID hasher (entries.md, Entry
Serialization and Fields). -/

/-- One LEB128 group step, driven by structural fuel; 10 groups cover every
value below 2 to the 70th, in particular the whole Varint63 range. -/
def encVarintAux : Nat → Nat → List Nat
  | 0, _ => []
  | fuel + 1, n => if n < 128 then [n] else (n % 128 + 128) :: encVarintAux fuel (n / 128)

/-- Modelled from the spec: Integer fields are encoded as Varint63 (unsigned
LEB128). -/
def encVarint (n : Nat) : List Nat :=
  encVarintAux 10 n

/-- Modelled from the spec: Hash fields are encoded as exactly 32 octets
(big-endian bytes of the modelled Nat value). -/
def nat32be (n : Nat) : List Nat :=
  (List.range 32).map (fun i => n / 256 ^ (31 - i) % 256)

/-- Modelled from the spec: String fields are Varstring31, a varint length
prefixed byte string. -/
def encString (s : List Nat) : List Nat :=
  encVarint s.length ++ s

/-- Modelled from the spec: a Hash is 32 octets. -/
def encHash (h : Nat) : List Nat :=
  nat32be h

/-- Modelled from the spec: AssetAmount is the Struct concatenation of its
AssetID hash and its Integer amount. -/
def encAssetAmount (a : AssetAmount) : List Nat :=
  encHash a.assetID ++ encVarint a.amount

/-- Modelled from the spec: Program is the Struct concatenation of its Script
string and its VM Version integer. -/
def encProgram (p : Program) : List Nat :=
  encString p.script ++ encVarint p.vmVersion

/-- Modelled from the spec: ValueSource is the Struct concatenation of Ref
(a Pointer, encoded as a Hash), Value and Position. -/
def encValueSource (v : ValueSource) : List Nat :=
  encHash v.ref ++ encAssetAmount v.value ++ encVarint v.position

/-- ASCII bytes of a literal string. -/
def ascii (s : String) : List Nat :=
  s.toList.map Char.toNat

/-- Modelled from the spec: the type tag of each entry variant (entries.md
type strings). -/
def typeTag : Entry → List Nat
  | .header _ => ascii "txheader"
  | .output _ => ascii "output1"
  | .retirement _ => ascii "retirement1"
  | .spend _ => ascii "spend1"
  | .issuance _ => ascii "issuance1"
  | .nonce _ => ascii "nonce"
  | .timerange _ => ascii "timerange"
  | .mux _ => ascii "mux1"

/-- Modelled from the spec: the canonical encoding of an entry body: the
Struct concatenation of the body fields in declared order (entries.md body
tables; Lists are encoded as a Varstring31 of the concatenated items,
ExtStruct as a single 32-byte hash).  Witness fields are never encoded. -/
def encodeBody : Entry → List Nat
  | .header h =>
      encVarint h.version ++ encString (h.results.map encHash).flatten ++ encHash h.data
        ++ encVarint h.mintime ++ encVarint h.maxtime ++ encHash h.extHash
  | .output o =>
      encValueSource o.source ++ encProgram o.controlProgram ++ encHash o.data
        ++ encHash o.extHash
  | .retirement r =>
      encValueSource r.source ++ encHash r.data ++ encHash r.extHash
  | .spend s =>
      encHash s.spentOutput ++ encHash s.data ++ encHash s.extHash
  | .issuance i =>
      encHash i.anchor ++ encAssetAmount i.value ++ encHash i.data ++ encHash i.extHash
  | .nonce n =>
      encProgram n.program ++ encHash n.timeRange ++ encHash n.extHash
  | .timerange t =>
      encVarint t.mintime ++ encVarint t.maxtime ++ encHash t.extHash
  | .mux m =>
      encString (m.sources.map encValueSource).flatten ++ encProgram m.program
        ++ encHash m.extHash

/-- Modelled from the spec: the content-addressed entry ID
(entries.md, Entry Serialization): the protocol hash of the literal prefix
"entryid:", the type tag, one colon, and the hash of the canonically encoded
body.  The 256-bit hash is abstracted as the parameter hashFn. -/
def entryID (hashFn : List Nat → List Nat) (e : Entry) : List Nat :=
  hashFn (ascii "entryid:" ++ typeTag e ++ ascii ":" ++ hashFn (encodeBody e))

/-! ## Validation engine (entries.md, Validation sections).  The injected
VM-version-1 program validator is the parameter vf; the hash of an asset
definition's canonical encoding is abstracted as the parameter ah. -/

/-- Modelled from the spec: Program Validation (entries.md).  A VM Version
above 1 succeeds exactly when the transaction version is above 1; VM Version
1 defers to the injected validator. -/
def checkProgram (vf : Program → List (List Nat) → Bool) (txVersion : Nat)
    (p : Program) (args : List (List Nat)) : Bool :=
  if 1 < p.vmVersion then decide (1 < txVersion)
  else if p.vmVersion = 1 then vf p args
  else false

/-- Modelled from the spec: ValueSource Validation step 2 (entries.md): the
destination matching a ValueSource.  An Issuance or Spend target requires
Position 0 and supplies its sole Destination; a Mux target supplies
Destinations at index Position; any other target fails. -/
def refDestinationOf (tx : Tx) (vs : ValueSource) : Option ValueDestination :=
  match lookupEntry tx vs.ref with
  | some (.issuance i) => if vs.position = 0 then some i.destination else none
  | some (.spend s) => if vs.position = 0 then some s.destination else none
  | some (.mux m) => m.destinations[vs.position]?
  | _ => none

/-- Modelled from the spec: ValueSource Validation steps 3 to 5 (entries.md):
the matching destination must point back at the current entry with the
current source position and an equal value. -/
def checkRefDest (eid sp : Nat) (v : AssetAmount) (d : ValueDestination) : Bool :=
  decide (d.ref = eid) && decide (d.position = sp) && decide (d.value = v)

/-- Modelled from the spec: ValueSource Validation (entries.md), for the
entry with ID eid whose source position is sp. -/
def checkValueSource (tx : Tx) (eid sp : Nat) (vs : ValueSource) : Bool :=
  match refDestinationOf tx vs with
  | some d => checkRefDest eid sp vs.value d
  | none => false

/-- Modelled from the spec: ValueDestination Validation step 2 (entries.md):
the source matching a ValueDestination.  An Output or Retirement target
requires Position 0 and supplies its Source; a Mux target supplies Sources at
index Position; any other target fails. -/
def refSourceOf (tx : Tx) (vd : ValueDestination) : Option ValueSource :=
  match lookupEntry tx vd.ref with
  | some (.output o) => if vd.position = 0 then some o.source else none
  | some (.retirement r) => if vd.position = 0 then some r.source else none
  | some (.mux m) => m.sources[vd.position]?
  | _ => none

/-- Modelled from the spec: ValueDestination Validation steps 3 to 5
(entries.md). -/
def checkRefSource (eid dp : Nat) (v : AssetAmount) (s : ValueSource) : Bool :=
  decide (s.ref = eid) && decide (s.position = dp) && decide (s.value = v)

/-- Modelled from the spec: ValueDestination Validation (entries.md), for the
entry with ID eid whose destination position is dp. -/
def checkValueDestination (tx : Tx) (eid dp : Nat) (vd : ValueDestination) : Bool :=
  match refSourceOf tx vd with
  | some s => checkRefSource eid dp vd.value s
  | none => false

/-- Modelled from the spec: one step of a checked per-asset sum: amounts of
other assets are skipped, a failed sum stays failed, and a partial sum
exceeding the 63-bit bound is an overflow and fails. -/
def checkedAdd (v : AssetAmount) (aid : Nat) (acc : Option Nat) : Option Nat :=
  match acc with
  | none => none
  | some s =>
    if v.assetID = aid then
      if v.amount + s ≤ 2 ^ 63 - 1 then some (v.amount + s) else none
    else some s

/-- Modelled from the spec: conservation sums use checked 64-bit arithmetic
(spec section 4.5, Conservation rule; arithmetic overflow is a validation
failure). -/
def checkedSumOf (aid : Nat) : List AssetAmount → Option Nat
  | [] => some 0
  | v :: rest => checkedAdd v aid (checkedSumOf aid rest)

/-- The plain (unchecked) per-asset sum of amounts. -/
def sumAmounts (aid : Nat) : List AssetAmount → Nat
  | [] => 0
  | v :: rest => (if v.assetID = aid then v.amount else 0) + sumAmounts aid rest

/-- Every AssetID represented in a Mux's Sources and Destinations. -/
def muxAssetIDs (m : Mux) : List Nat :=
  m.sources.map (fun v => v.value.assetID) ++ m.destinations.map (fun v => v.value.assetID)

/-- Modelled from the spec: Mux Validation step 4 (entries.md): for each
represented AssetID the checked source and destination sums must both succeed
and be equal. -/
def checkMuxConservation (m : Mux) : Bool :=
  (muxAssetIDs m).all (fun aid =>
    match checkedSumOf aid (m.sources.map (fun v => v.value)),
        checkedSumOf aid (m.destinations.map (fun v => v.value)) with
    | some a, some b => decide (a = b)
    | _, _ => false)

/-- Modelled from the spec: the entry IDs traversed from each entry during
validation (spec section 4.4).  A Spend contributes only its Destination,
because entries.md requires the SpentOutput merely to be present, not
valid. -/
def childIDs : Entry → List Nat
  | .header h => h.results
  | .output o => [o.source.ref]
  | .retirement r => [r.source.ref]
  | .spend s => [s.destination.ref]
  | .issuance i => [i.anchor, i.destination.ref]
  | .nonce n => [n.timeRange, n.issuance]
  | .timerange _ => []
  | .mux m => m.sources.map (fun v => v.ref) ++ m.destinations.map (fun v => v.ref)

/-- Modelled from the spec: the entry IDs traversed when following only
Results and Sources (used by Nonce validation, entries.md). -/
def bodyChildIDs : Entry → List Nat
  | .header h => h.results
  | .output o => [o.source.ref]
  | .retirement r => [r.source.ref]
  | .mux m => m.sources.map (fun v => v.ref)
  | _ => []

/-- Fuel-driven depth-first traversal collecting visited entry IDs.  An ID
that does not resolve is still recorded, so that validation can reject it. -/
def dfsAux (tx : Tx) (ch : Entry → List Nat) : Nat → List Nat → List Nat → List Nat
  | 0, visited, _ => visited
  | _ + 1, visited, [] => visited
  | fuel + 1, visited, i :: stack =>
    if i ∈ visited then dfsAux tx ch fuel visited stack
    else
      match lookupEntry tx i with
      | none => dfsAux tx ch fuel (i :: visited) stack
      | some e => dfsAux tx ch fuel (i :: visited) (ch e ++ stack)

/-- A fuel bound large enough to exhaust any traversal of the finite entry
map. -/
def txFuel (tx : Tx) : Nat :=
  (tx.entries.length + 1)
    * (tx.entries.foldl (fun n p => n + (childIDs p.2).length + 1)
        (tx.header.results.length + 1))

/-- Modelled from the spec: the entry IDs reachable from the transaction
header along the validation traversal (spec section 4.4). -/
def reachableIDs (tx : Tx) : List Nat :=
  dfsAux tx childIDs (txFuel tx) [] tx.header.results

/-- Modelled from the spec: the entry IDs visitable by traversing Results and
Sources from the transaction header (entries.md, Nonce Validation). -/
def bodyReachableIDs (tx : Tx) : List Nat :=
  dfsAux tx bodyChildIDs (txFuel tx) [] tx.header.results

/-- Modelled from the spec: the per-variant validation rules of entries.md.
The header variant is never a legal pointer target.  The Spend rule checks
only the presence (and Output type) of SpentOutput, not its validity. -/
def checkEntryRules (vf : Program → List (List Nat) → Bool)
    (ah : AssetDefinition → Nat) (tx : Tx) (eid : Nat) : Entry → Bool
  | .header _ => false
  | .output o => checkValueSource tx eid 0 o.source
  | .retirement r => checkValueSource tx eid 0 r.source
  | .spend s =>
    (match lookupEntry tx s.spentOutput with
     | some (.output so) =>
       checkProgram vf tx.header.version so.controlProgram s.arguments
         && decide (so.source.value = s.destination.value)
     | _ => false)
      && checkValueDestination tx eid 0 s.destination
  | .issuance i =>
    decide (ah i.assetDefinition = i.value.assetID)
      && checkProgram vf tx.header.version i.assetDefinition.issuanceProgram i.arguments
      && (match lookupEntry tx i.anchor with
          | some (.nonce _) => true
          | some (.spend _) => true
          | _ => false)
      && checkValueDestination tx eid 0 i.destination
  | .nonce n =>
    checkProgram vf tx.header.version n.program n.arguments
      && (match lookupEntry tx n.issuance with
          | some (.issuance iss) =>
            decide (iss.anchor = eid) && decide (n.issuance ∈ bodyReachableIDs tx)
          | _ => false)
      && (match lookupEntry tx n.timeRange with
          | some (.timerange _) => true
          | _ => false)
  | .timerange t =>
    decide (t.mintime ≤ tx.header.mintime)
      && (decide (t.maxtime = 0) || decide (tx.header.maxtime ≤ t.maxtime))
  | .mux m =>
    checkProgram vf tx.header.version m.program m.arguments
      && m.sources.enum.all (fun q => checkValueSource tx eid q.1 q.2)
      && m.destinations.enum.all (fun q => checkValueDestination tx eid q.1 q.2)
      && checkMuxConservation m

/-- Modelled from the spec: extension discipline G5: when the transaction
version is the known version 1, the entry's ExtHash must be all zero. -/
def checkEntry (vf : Program → List (List Nat) → Bool) (ah : AssetDefinition → Nat)
    (tx : Tx) (eid : Nat) (e : Entry) : Bool :=
  (decide (tx.header.version ≠ 1) || decide (extHashOf e = 0))
    && checkEntryRules vf ah tx eid e

/-- Modelled from the spec: TxHeader Validation (entries.md): Results is
nonempty and each result resolves to an Output or Retirement, plus the
header's own extension discipline at version 1. -/
def checkHeader (tx : Tx) : Bool :=
  decide (tx.header.results ≠ [])
    && tx.header.results.all (fun r =>
        match lookupEntry tx r with
        | some (.output _) => true
        | some (.retirement _) => true
        | _ => false)
    && (decide (tx.header.version ≠ 1) || decide (tx.header.extHash = 0))

/-- Modelled from the spec: whole-transaction validation: the header checks
pass and every entry reachable from the header resolves and satisfies its
per-entry rule (spec section 4.5). -/
def validateTx (vf : Program → List (List Nat) → Bool) (ah : AssetDefinition → Nat)
    (tx : Tx) : Bool :=
  checkHeader tx
    && (reachableIDs tx).all (fun i =>
        match lookupEntry tx i with
        | some e => checkEntry vf ah tx i e
        | none => false)

/-! ## State application (spec section 4.6).  The chain state holds the UTXO
set and the Nonce set; every failure is the StateError outcome, modelled as
none, so a failed application leaves the caller's state untouched. -/

/-- The chain state: the UTXO set and the Nonce set. -/
structure ChainState where
  utxos : List Nat
  nonces : List Nat
deriving DecidableEq

/-- The reachable entries of a transaction paired with their IDs. -/
def reachablePairs (tx : Tx) : List (Nat × Entry) :=
  (reachableIDs tx).filterMap (fun i => (lookupEntry tx i).map (fun e => (i, e)))

/-- Modelled from the spec: UTXO removals: for each Spend, remove the
SpentOutput's entry ID from the UTXO set, failing if it is absent. -/
def applyRemovals : List (Nat × Entry) → List Nat → Option (List Nat)
  | [], u => some u
  | (_, .spend s) :: rest, u =>
    if s.spentOutput ∈ u then applyRemovals rest (u.erase s.spentOutput) else none
  | _ :: rest, u => applyRemovals rest u

/-- Modelled from the spec: UTXO additions: for each Output, add its entry ID
to the UTXO set. -/
def applyAdditions : List (Nat × Entry) → List Nat → List Nat
  | [], u => u
  | (i, .output _) :: rest, u => applyAdditions rest (i :: u)
  | _ :: rest, u => applyAdditions rest u

/-- Modelled from the spec: Nonce insertions: for each Nonce, require its
entry ID to be absent from the Nonce set and insert it, failing on a
duplicate. -/
def applyNonces : List (Nat × Entry) → List Nat → Option (List Nat)
  | [], ns => some ns
  | (i, .nonce _) :: rest, ns =>
    if i ∈ ns then none else applyNonces rest (i :: ns)
  | _ :: rest, ns => applyNonces rest ns

/-- Modelled from the spec: atomic application of an accepted transaction's
delta against the chain state at block timestamp ts: header time bounds,
UTXO removals, Nonce insertions and UTXO additions; any failure yields none
and no effect persists. -/
def applyTx (ts : Nat) (tx : Tx) (st : ChainState) : Option ChainState :=
  if (tx.header.mintime = 0 ∨ tx.header.mintime < ts)
      ∧ (tx.header.maxtime = 0 ∨ ts < tx.header.maxtime) then
    match applyRemovals (reachablePairs tx) st.utxos with
    | none => none
    | some u =>
      match applyNonces (reachablePairs tx) st.nonces with
      | none => none
      | some ns => some ⟨applyAdditions (reachablePairs tx) u, ns⟩
  else none

/-! ## Functions translated from core/core.go. -/

/-- From core/core.go: the first segment of a byte string up to, but not
including, the first colon, together with the rest after the colon when a
colon occurs (the behaviour of strings.SplitN with separator ":" and n 2). -/
def breakColon : List Char → List Char × Option (List Char)
  | [] => ([], none)
  | c :: rest =>
    if c = ':' then ([], some rest)
    else
      let p := breakColon rest
      (c :: p.1, p.2)

/-- From core/core.go, obfuscateTokenSecret: split the token at the first
colon; keep the part before it and, when a colon occurred, append the literal
mask ":********" in place of the secret. -/
def obfuscateTokenSecret (token : List Char) : List Char :=
  match breakColon token with
  | (pre, none) => pre
  | (pre, some _) => pre ++ (":********").toList

/-- From core/core.go: the error message of errAlreadyConfigured. -/
def alreadyConfiguredMsg : String :=
  "core is already configured; must reset first"

/-- The configuration fields of config.Config that configure inspects. -/
structure Config where
  isGenerator : Bool
  maxIssuanceWindowMs : Nat
deriving DecidableEq

/-- Modelled from the spec: bc.DurationMillis (not under the available
sources) converts a Go duration to milliseconds, so 24 hours is 86400000. -/
def dayMillis : Nat := 24 * 60 * 60 * 1000

/-- From core/core.go, (*API).configure: when the core already holds a
config, return errAlreadyConfigured at once; otherwise, when the submitted
config is a generator with a zero MaxIssuanceWindowMs, default that window to
24 hours in milliseconds, then hand the config to config.Configure.  The
success value is the config as handed over. -/
def configure (current : Option Config) (x : Config) : Except String Config :=
  match current with
  | some _ => .error alreadyConfiguredMsg
  | none =>
    let x := if x.isGenerator && decide (x.maxIssuanceWindowMs = 0) then
        { x with maxIssuanceWindowMs := dayMillis }
      else x
    .ok x

/-! ## Concrete transactions used to instantiate the theorems.  Entry IDs are
small distinct Nat keys; the injected program validator accepts everything
and the injected asset-definition hash is the constant 5, matching the
AssetID used below. -/

/-- A program validator that accepts every VM-version-1 program. -/
def vTrue : Program → List (List Nat) → Bool := fun _ _ => true

/-- An asset-definition hash returning the constant AssetID 5. -/
def adH5 : AssetDefinition → Nat := fun _ => 5

/-- The trivial VM-version-1 program. -/
def progT : Program := ⟨[], 1⟩

/-- A concrete asset definition. -/
def adD : AssetDefinition := ⟨0, 0, progT⟩

/-- 100 units of asset 5. -/
def aa : AssetAmount := ⟨5, 100⟩

/-- TimeRange entry of the examples: bounds 0, 0. -/
def trA : TimeRange := ⟨0, 0, 0⟩

/-- Nonce entry of the examples: trivial program, TimeRange at ID 1,
Issuance at ID 3. -/
def nonceA : Nonce := ⟨progT, 1, 0, [], 3⟩

/-- Issuance anchored at the Nonce (ID 2) sending 100 units of asset 5 to
the entry at ID 4. -/
def issA : Issuance := ⟨2, aa, 0, 0, ⟨4, aa, 0⟩, adD, []⟩

/-- Output receiving the issued value straight from the Issuance at ID 3. -/
def outA : Output := ⟨⟨3, aa, 0⟩, progT, 0, 0⟩

/-- Header of the minimal issuance transaction: version 1, sole result the
Output at ID 4. -/
def hdrA : TxHeader := ⟨1, [4], 0, 0, 0, 0⟩

/-- The minimal issuance transaction: TimeRange 1, Nonce 2, Issuance 3,
Output 4. -/
def txA : Tx :=
  ⟨hdrA, [(1, .timerange trA), (2, .nonce nonceA), (3, .issuance issA), (4, .output outA)]⟩

/-- The Output of txA with a nonzero ExtHash. -/
def outBad : Output := ⟨⟨3, aa, 0⟩, progT, 0, 1⟩

/-- txA with a nonzero ExtHash on its Output. -/
def txBadExt : Tx :=
  ⟨hdrA, [(1, .timerange trA), (2, .nonce nonceA), (3, .issuance issA), (4, .output outBad)]⟩

/-- An unreachable junk Output whose ValueSource points at the absent ID 7. -/
def junkO : Output := ⟨⟨7, ⟨5, 1⟩, 0⟩, progT, 0, 0⟩

/-- txA extended with the unreachable junk Output under ID 9. -/
def txC4 : Tx :=
  ⟨hdrA, [(1, .timerange trA), (2, .nonce nonceA), (3, .issuance issA), (4, .output outA),
    (9, .output junkO)]⟩

/-- Issuance of the mux transaction, sending its value to the Mux at ID 4. -/
def issB : Issuance := ⟨2, aa, 0, 0, ⟨4, aa, 0⟩, adD, []⟩

/-- Mux taking 100 units of asset 5 from the Issuance at ID 3 and forwarding
them to the Output at ID 5. -/
def muxB : Mux := ⟨[⟨3, aa, 0⟩], progT, 0, [⟨5, aa, 0⟩], []⟩

/-- Output of the mux transaction, fed from the Mux at ID 4. -/
def outB : Output := ⟨⟨4, aa, 0⟩, progT, 0, 0⟩

/-- Header of the mux transaction: version 1, sole result the Output at
ID 5. -/
def hdrB : TxHeader := ⟨1, [5], 0, 0, 0, 0⟩

/-- The issuance-through-mux transaction: TimeRange 1, Nonce 2, Issuance 3,
Mux 4, Output 5. -/
def txB : Tx :=
  ⟨hdrB, [(1, .timerange trA), (2, .nonce nonceA), (3, .issuance issB), (4, .mux muxB),
    (5, .output outB)]⟩

/-- A conservation-violating Mux: one source of 100 units of asset 5 and no
destinations at all. -/
def badMux : Mux := ⟨[⟨3, aa, 0⟩], progT, 0, [], []⟩

/-- txB extended with the conservation-violating Mux under ID 9, which no
reachable entry references. -/
def txC1 : Tx :=
  ⟨hdrB, [(1, .timerange trA), (2, .nonce nonceA), (3, .issuance issB), (4, .mux muxB),
    (5, .output outB), (9, .mux badMux)]⟩

/-- The previously created Output being spent: present in the transaction but
not itself valid there (its own ValueSource points at the absent ID 9). -/
def outPrev : Output := ⟨⟨9, aa, 0⟩, progT, 0, 0⟩

/-- Spend consuming the Output at ID 1 and forwarding its value to the Output
at ID 3. -/
def spendS : Spend := ⟨1, 0, 0, ⟨3, aa, 0⟩, []⟩

/-- The new Output fed from the Spend at ID 2. -/
def outNew : Output := ⟨⟨2, aa, 0⟩, progT, 0, 0⟩

/-- Header of the spend transaction: version 1, sole result the Output at
ID 3. -/
def hdrS : TxHeader := ⟨1, [3], 0, 0, 0, 0⟩

/-- The spend transaction: spent Output 1, Spend 2, new Output 3. -/
def txSpend : Tx :=
  ⟨hdrS, [(1, .output outPrev), (2, .spend spendS), (3, .output outNew)]⟩

/-- The empty chain state. -/
def st0 : ChainState := ⟨[], []⟩

/-- Modelled from the spec: the ValueSources held by an entry, each paired
with its source position: 0 for an Output or Retirement, the index within
Sources for a Mux (entries.md, ValueSource Validation step 4). -/
def sourcesWithPos : Entry → List (Nat × ValueSource)
  | .output o => [(0, o.source)]
  | .retirement r => [(0, r.source)]
  | .mux m => m.sources.enum
  | _ => []

/-- A concrete stand-in hash used to instantiate entry-ID theorems. -/
def hLen : List Nat → List Nat := fun l => [l.length]

/-- A Spend entry used to instantiate entry-ID theorems. -/
def sWit1 : Entry := .spend ⟨1, 0, 0, ⟨3, aa, 0⟩, []⟩

/-- The same Spend body as sWit1 under different witness fields. -/
def sWit2 : Entry := .spend ⟨1, 0, 0, ⟨7, ⟨8, 9⟩, 2⟩, [[1, 2]]⟩

end Chain

namespace Chain

/-! ## Helper lemmas shared by the claim theorems. -/

/-- Acceptance of a transaction forces the per-entry check at every resolved
reachable entry. -/
theorem validate_entry_check {vf : Program → List (List Nat) → Bool}
    {ah : AssetDefinition → Nat} {tx : Tx} (h : validateTx vf ah tx = true) :
    ∀ i e, i ∈ reachableIDs tx → lookupEntry tx i = some e →
      checkEntry vf ah tx i e = true := by
  intro i e hi he
  unfold validateTx at h
  rw [Bool.and_eq_true, List.all_eq_true] at h
  have h2 := h.2 i hi
  rw [he] at h2
  exact h2

/-- A passing per-entry check splits into extension discipline and the
variant rule. -/
theorem checkEntry_true {vf : Program → List (List Nat) → Bool}
    {ah : AssetDefinition → Nat} {tx : Tx} {i : Nat} {e : Entry}
    (h : checkEntry vf ah tx i e = true) :
    (tx.header.version = 1 → extHashOf e = 0) ∧ checkEntryRules vf ah tx i e = true := by
  rw [checkEntry, Bool.and_eq_true] at h
  refine ⟨fun hv => ?_, h.2⟩
  rcases (Bool.or_eq_true _ _).mp h.1 with h' | h'
  · exact absurd hv (by simpa using h')
  · simpa using h'

/-- A passing ValueSource check yields the matching destination and its
back-pointing fields. -/
theorem checkValueSource_spec {tx : Tx} {eid sp : Nat} {vs : ValueSource}
    (h : checkValueSource tx eid sp vs = true) :
    ∃ d, refDestinationOf tx vs = some d ∧ d.ref = eid ∧ d.position = sp
      ∧ d.value = vs.value := by
  unfold checkValueSource at h
  cases hd : refDestinationOf tx vs with
  | none => rw [hd] at h; cases h
  | some d =>
    rw [hd] at h
    unfold checkRefDest at h
    simp only [Bool.and_eq_true, decide_eq_true_eq] at h
    exact ⟨d, rfl, h.1.1, h.1.2, h.2⟩

/-- A passing ValueDestination check yields the matching source and its
back-pointing fields. -/
theorem checkValueDestination_spec {tx : Tx} {eid dp : Nat} {vd : ValueDestination}
    (h : checkValueDestination tx eid dp vd = true) :
    ∃ s, refSourceOf tx vd = some s ∧ s.ref = eid ∧ s.position = dp
      ∧ s.value = vd.value := by
  unfold checkValueDestination at h
  cases hs : refSourceOf tx vd with
  | none => rw [hs] at h; cases h
  | some s =>
    rw [hs] at h
    unfold checkRefSource at h
    simp only [Bool.and_eq_true, decide_eq_true_eq] at h
    exact ⟨s, rfl, h.1.1, h.1.2, h.2⟩

/-- The matching destination of a ValueSource exists only when the reference
resolves to an Issuance, Spend or Mux. -/
theorem refDestinationOf_variant {tx : Tx} {vs : ValueSource} {d : ValueDestination}
    (h : refDestinationOf tx vs = some d) :
    (∃ a, lookupEntry tx vs.ref = some (.issuance a))
      ∨ (∃ a, lookupEntry tx vs.ref = some (.spend a))
      ∨ ∃ a, lookupEntry tx vs.ref = some (.mux a) := by
  unfold refDestinationOf at h
  cases hl : lookupEntry tx vs.ref with
  | none => rw [hl] at h; cases h
  | some e =>
    cases e with
    | issuance a => exact .inl ⟨a, rfl⟩
    | spend a => exact .inr (.inl ⟨a, rfl⟩)
    | mux a => exact .inr (.inr ⟨a, rfl⟩)
    | header a => rw [hl] at h; cases h
    | output a => rw [hl] at h; cases h
    | retirement a => rw [hl] at h; cases h
    | nonce a => rw [hl] at h; cases h
    | timerange a => rw [hl] at h; cases h

/-- A succeeding checked sum equals the plain per-asset sum and fits the
63-bit bound. -/
theorem checkedSumOf_spec (aid : Nat) :
    ∀ (l : List AssetAmount) (s : Nat), checkedSumOf aid l = some s →
      s = sumAmounts aid l ∧ s ≤ 2 ^ 63 - 1 := by
  intro l
  induction l with
  | nil =>
    intro s h
    simp only [checkedSumOf, Option.some.injEq] at h
    subst h
    exact ⟨rfl, Nat.zero_le _⟩
  | cons v rest ih =>
    intro s h
    simp only [checkedSumOf] at h
    cases hr : checkedSumOf aid rest with
    | none => rw [hr] at h; cases h
    | some t =>
      rw [hr] at h
      obtain ⟨ht, hb⟩ := ih t hr
      simp only [checkedAdd] at h
      split_ifs at h with hv hc
      · simp only [Option.some.injEq] at h
        subst h
        exact ⟨by simp [sumAmounts, hv, ← ht], hc⟩
      · simp only [Option.some.injEq] at h
        subst h
        exact ⟨by simp [sumAmounts, hv, ht], hb⟩

/-! ## Claim theorems. -/

/-- C2: every entry's ID is the protocol hash of the literal prefix
"entryid:", the type tag, a single colon and the hash of the canonically
encoded body; the ID therefore depends only on the type tag and the body
bytes, and entries differing only in witness fields (Spend, Issuance, Nonce
and Mux are the variants that have any) share their entry ID. -/
theorem entryID_spec :
    (∀ (hashFn : List Nat → List Nat) (e : Entry),
      entryID hashFn e
        = hashFn (ascii "entryid:" ++ typeTag e ++ ascii ":" ++ hashFn (encodeBody e)))
    ∧ (∀ (hashFn : List Nat → List Nat) (e1 e2 : Entry),
      typeTag e1 = typeTag e2 → encodeBody e1 = encodeBody e2 →
        entryID hashFn e1 = entryID hashFn e2)
    ∧ (∀ (hashFn : List Nat → List Nat) so da ex d1 a1 d2 a2,
      entryID hashFn (.spend ⟨so, da, ex, d1, a1⟩)
        = entryID hashFn (.spend ⟨so, da, ex, d2, a2⟩))
    ∧ (∀ (hashFn : List Nat → List Nat) an v da ex d1 f1 a1 d2 f2 a2,
      entryID hashFn (.issuance ⟨an, v, da, ex, d1, f1, a1⟩)
        = entryID hashFn (.issuance ⟨an, v, da, ex, d2, f2, a2⟩))
    ∧ (∀ (hashFn : List Nat → List Nat) pg tr ex a1 i1 a2 i2,
      entryID hashFn (.nonce ⟨pg, tr, ex, a1, i1⟩)
        = entryID hashFn (.nonce ⟨pg, tr, ex, a2, i2⟩))
    ∧ (∀ (hashFn : List Nat → List Nat) srcs pg ex d1 a1 d2 a2,
      entryID hashFn (.mux ⟨srcs, pg, ex, d1, a1⟩)
        = entryID hashFn (.mux ⟨srcs, pg, ex, d2, a2⟩)) := by
  refine ⟨fun hashFn e => rfl, fun hashFn e1 e2 h1 h2 => ?_, fun _ _ _ _ _ _ _ _ => rfl,
    fun _ _ _ _ _ _ _ _ _ _ _ => rfl, fun _ _ _ _ _ _ _ _ => rfl,
    fun _ _ _ _ _ _ _ _ => rfl⟩
  unfold entryID
  rw [h1, h2]

/-- Witness for C2 at a concrete hash function and concrete Spend entries
differing only in witness fields. -/
theorem entryID_spec_witness :
    entryID hLen sWit1
      = hLen (ascii "entryid:" ++ typeTag sWit1 ++ ascii ":" ++ hLen (encodeBody sWit1))
    ∧ entryID hLen sWit1 = entryID hLen sWit2 :=
  ⟨entryID_spec.1 hLen sWit1,
   entryID_spec.2.1 hLen sWit1 sWit2 (by decide) (by decide)⟩

/-- C3: program validation with a VM version above 1 succeeds exactly when
the transaction version is above 1, and with VM version 1 succeeds exactly
when the injected VM-version-1 validator returns true. -/
theorem program_validation_rule (vf : Program → List (List Nat) → Bool) (v : Nat)
    (p : Program) (a : List (List Nat)) :
    (1 < p.vmVersion → (checkProgram vf v p a = true ↔ 1 < v))
    ∧ (p.vmVersion = 1 → (checkProgram vf v p a = true ↔ vf p a = true)) := by
  constructor
  · intro h1
    simp [checkProgram, h1]
  · intro h1
    simp [checkProgram, h1]

/-- Witness for C3 at VM versions 2 and 1. -/
theorem program_validation_rule_witness :
    (checkProgram vTrue 2 ⟨[], 2⟩ [] = true ↔ 1 < 2)
    ∧ (checkProgram vTrue 5 ⟨[], 1⟩ [] = true ↔ vTrue ⟨[], 1⟩ [] = true) :=
  ⟨(program_validation_rule vTrue 2 ⟨[], 2⟩ []).1 (by decide),
   (program_validation_rule vTrue 5 ⟨[], 1⟩ []).2 rfl⟩

/-- A token without a colon is split into itself and no remainder. -/
theorem breakColon_of_not_mem : ∀ {t : List Char}, ':' ∉ t → breakColon t = (t, none) := by
  intro t h
  induction t with
  | nil => rfl
  | cons c rest ih =>
    rw [List.mem_cons, not_or] at h
    obtain ⟨h1, h2⟩ := h
    have hc : ¬c = ':' := fun e => h1 e.symm
    simp [breakColon, hc, ih h2]

/-- A token with a colon is split into the segment before the first colon
and some remainder. -/
theorem breakColon_of_mem : ∀ {t : List Char}, ':' ∈ t →
    ∃ rest, breakColon t = (t.takeWhile (fun c => decide (c ≠ ':')), some rest) := by
  intro t h
  induction t with
  | nil => cases h
  | cons c r ih =>
    by_cases hc : c = ':'
    · subst hc
      exact ⟨r, by simp [breakColon, List.takeWhile_cons]⟩
    · have hr : ':' ∈ r := by
        rcases List.mem_cons.mp h with e | e
        · exact absurd e.symm hc
        · exact e
      obtain ⟨rest, hrest⟩ := ih hr
      exact ⟨rest, by simp [breakColon, hc, List.takeWhile_cons, hrest]⟩

/-- C9: for a token containing a colon, obfuscateTokenSecret keeps only the
segment before the first colon and appends the literal mask, so the output
is independent of the secret portion; a token without a colon is returned
unchanged. -/
theorem obfuscateTokenSecret_spec :
    (∀ t : List Char, ':' ∈ t →
      obfuscateTokenSecret t
        = t.takeWhile (fun c => decide (c ≠ ':')) ++ (":********").toList)
    ∧ (∀ t1 t2 : List Char, ':' ∈ t1 → ':' ∈ t2 →
      t1.takeWhile (fun c => decide (c ≠ ':')) = t2.takeWhile (fun c => decide (c ≠ ':')) →
      obfuscateTokenSecret t1 = obfuscateTokenSecret t2)
    ∧ (∀ t : List Char, ':' ∉ t → obfuscateTokenSecret t = t) := by
  have h1 : ∀ t : List Char, ':' ∈ t →
      obfuscateTokenSecret t
        = t.takeWhile (fun c => decide (c ≠ ':')) ++ (":********").toList := by
    intro t h
    obtain ⟨rest, hb⟩ := breakColon_of_mem h
    simp [obfuscateTokenSecret, hb]
  refine ⟨h1, fun t1 t2 m1 m2 he => ?_, fun t h => ?_⟩
  · rw [h1 t1 m1, h1 t2 m2, he]
  · simp [obfuscateTokenSecret, breakColon_of_not_mem h]

/-- Witness for C9 on concrete tokens with equal public segments and on a
colon-free token. -/
theorem obfuscateTokenSecret_spec_witness :
    obfuscateTokenSecret ("ab:secret").toList
      = ("ab:secret").toList.takeWhile (fun c => decide (c ≠ ':')) ++ (":********").toList
    ∧ obfuscateTokenSecret ("ab:secret").toList = obfuscateTokenSecret ("ab:zz").toList
    ∧ obfuscateTokenSecret ("abc").toList = ("abc").toList :=
  ⟨obfuscateTokenSecret_spec.1 ("ab:secret").toList (by decide),
   obfuscateTokenSecret_spec.2.1 ("ab:secret").toList ("ab:zz").toList
     (by decide) (by decide) (by decide),
   obfuscateTokenSecret_spec.2.2 ("abc").toList (by decide)⟩

/-- C10: configure on an already-configured core returns the
already-configured error without handing anything to config.Configure, and
on an unconfigured core a generator config with a zero MaxIssuanceWindowMs
is defaulted to 24 hours in milliseconds before being configured. -/
theorem configure_spec :
    (∀ c x, configure (some c) x = Except.error alreadyConfiguredMsg)
    ∧ (∀ x : Config, x.isGenerator = true → x.maxIssuanceWindowMs = 0 →
      configure none x = Except.ok ⟨true, 86400000⟩) := by
  refine ⟨fun c x => rfl, fun x h1 h2 => ?_⟩
  cases x with
  | mk g m =>
    simp only at h1 h2
    subst h1
    subst h2
    rfl

/-- Witness for C10 at a configured core and at a fresh generator config. -/
theorem configure_spec_witness :
    configure (some ⟨false, 7⟩) ⟨true, 0⟩ = Except.error alreadyConfiguredMsg
    ∧ configure none ⟨true, 0⟩ = Except.ok ⟨true, 86400000⟩ :=
  ⟨configure_spec.1 ⟨false, 7⟩ ⟨true, 0⟩, configure_spec.2 ⟨true, 0⟩ rfl rfl⟩

/-- C1, counterexample to the claim as stated: the concrete transaction txC1
is accepted, yet its unreachable Mux entry (held under ID 9) has, for
AssetID 5, a source sum of 100 against a destination sum of 0: the
quantification over every Mux entry of the transaction fails, because
entries unreachable from the header are never validated. -/
theorem mux_conservation_cex :
    validateTx vTrue adH5 txC1 = true
    ∧ lookupEntry txC1 9 = some (.mux badMux)
    ∧ 5 ∈ muxAssetIDs badMux
    ∧ checkedSumOf 5 (badMux.sources.map (fun v => v.value)) = some 100
    ∧ checkedSumOf 5 (badMux.destinations.map (fun v => v.value)) = some 0
    ∧ checkMuxConservation badMux = false := by
  exact ⟨by decide, by decide, by decide, by decide, by decide, by decide⟩

/-- C1 as amended: in an accepted transaction, every Mux reachable from the
header conserves value per
AssetID: the checked source and destination sums both succeed with one value
s, s is the plain per-asset sum on each side, and s fits within 63 bits (a
checked sum that overflows returns none and would have failed validation
rather than wrap). -/
theorem mux_conservation (vf : Program → List (List Nat) → Bool)
    (ah : AssetDefinition → Nat) (tx : Tx) (i : Nat) (m : Mux) (aid : Nat)
    (h : validateTx vf ah tx = true) (hi : i ∈ reachableIDs tx)
    (he : lookupEntry tx i = some (.mux m)) (ha : aid ∈ muxAssetIDs m) :
    ∃ s, checkedSumOf aid (m.sources.map (fun v => v.value)) = some s
      ∧ checkedSumOf aid (m.destinations.map (fun v => v.value)) = some s
      ∧ s = sumAmounts aid (m.sources.map (fun v => v.value))
      ∧ s = sumAmounts aid (m.destinations.map (fun v => v.value))
      ∧ s ≤ 2 ^ 63 - 1 := by
  have hc := (checkEntry_true (validate_entry_check h i _ hi he)).2
  simp only [checkEntryRules, Bool.and_eq_true] at hc
  have hcons := hc.2
  unfold checkMuxConservation at hcons
  rw [List.all_eq_true] at hcons
  have h3 := hcons aid ha
  cases hs : checkedSumOf aid (m.sources.map (fun v => v.value)) with
  | none => rw [hs] at h3; cases h3
  | some a =>
    rw [hs] at h3
    cases hd : checkedSumOf aid (m.destinations.map (fun v => v.value)) with
    | none => rw [hd] at h3; cases h3
    | some b =>
      rw [hd] at h3
      have hab : a = b := of_decide_eq_true h3
      obtain ⟨hsa, hba⟩ := checkedSumOf_spec aid _ a hs
      obtain ⟨hsb, _⟩ := checkedSumOf_spec aid _ b hd
      subst hab
      exact ⟨a, rfl, rfl, hsa, hsb, hba⟩

/-- Witness for C1 at the reachable Mux of the concrete mux transaction. -/
theorem mux_conservation_witness :
    ∃ s, checkedSumOf 5 (muxB.sources.map (fun v => v.value)) = some s
      ∧ checkedSumOf 5 (muxB.destinations.map (fun v => v.value)) = some s
      ∧ s = sumAmounts 5 (muxB.sources.map (fun v => v.value))
      ∧ s = sumAmounts 5 (muxB.destinations.map (fun v => v.value))
      ∧ s ≤ 2 ^ 63 - 1 :=
  mux_conservation vTrue adH5 txB 4 muxB 5 (by decide) (by decide) (by decide) (by decide)

/-- C4, counterexample to the claim as stated: the concrete transaction txC4
is accepted, yet its unreachable junk Output (an entry of the transaction,
held under ID 9) holds a ValueSource whose Ref resolves to no Issuance,
Spend or Mux at all: the quantification over every entry of T fails. -/
theorem value_source_symmetry_cex :
    validateTx vTrue adH5 txC4 = true
    ∧ lookupEntry txC4 9 = some (.output junkO)
    ∧ refDestinationOf txC4 junkO.source = none := by
  exact ⟨by decide, by decide, by decide⟩

/-- C4 as amended: in an accepted transaction, every ValueSource held by an
entry reachable from the header resolves to an Issuance, Spend or Mux, and
the matching ValueDestination (the sole Destination, at required Position 0,
for an Issuance or Spend target, or Destinations at the source's Position
for a Mux target) points back at the holding entry with the holder's source
position (the index within Sources for a Mux holder, 0 otherwise) and an
equal Value. -/
theorem value_source_symmetry (vf : Program → List (List Nat) → Bool)
    (ah : AssetDefinition → Nat) (tx : Tx) (i : Nat) (e : Entry) (p : Nat)
    (vs : ValueSource) (h : validateTx vf ah tx = true) (hi : i ∈ reachableIDs tx)
    (he : lookupEntry tx i = some e) (hm : (p, vs) ∈ sourcesWithPos e) :
    ((∃ a, lookupEntry tx vs.ref = some (.issuance a))
      ∨ (∃ a, lookupEntry tx vs.ref = some (.spend a))
      ∨ ∃ a, lookupEntry tx vs.ref = some (.mux a))
    ∧ ∃ d, refDestinationOf tx vs = some d ∧ d.ref = i ∧ d.position = p
        ∧ d.value = vs.value := by
  have hc := (checkEntry_true (validate_entry_check h i e hi he)).2
  cases e with
  | header a => simp [sourcesWithPos] at hm
  | spend a => simp [sourcesWithPos] at hm
  | issuance a => simp [sourcesWithPos] at hm
  | nonce a => simp [sourcesWithPos] at hm
  | timerange a => simp [sourcesWithPos] at hm
  | output o =>
    simp only [sourcesWithPos, List.mem_singleton, Prod.mk.injEq] at hm
    obtain ⟨hp, hv⟩ := hm
    subst hp
    subst hv
    simp only [checkEntryRules] at hc
    obtain ⟨d, hd, h1, h2, h3⟩ := checkValueSource_spec hc
    exact ⟨refDestinationOf_variant hd, d, hd, h1, h2, h3⟩
  | retirement r =>
    simp only [sourcesWithPos, List.mem_singleton, Prod.mk.injEq] at hm
    obtain ⟨hp, hv⟩ := hm
    subst hp
    subst hv
    simp only [checkEntryRules] at hc
    obtain ⟨d, hd, h1, h2, h3⟩ := checkValueSource_spec hc
    exact ⟨refDestinationOf_variant hd, d, hd, h1, h2, h3⟩
  | mux m =>
    simp only [sourcesWithPos] at hm
    simp only [checkEntryRules, Bool.and_eq_true] at hc
    have hall := hc.1.1.2
    rw [List.all_eq_true] at hall
    have hvs := hall (p, vs) hm
    obtain ⟨d, hd, h1, h2, h3⟩ := checkValueSource_spec hvs
    exact ⟨refDestinationOf_variant hd, d, hd, h1, h2, h3⟩

/-- Witness for amended C4 at the Output entry of the concrete mux
transaction. -/
theorem value_source_symmetry_witness :
    ((∃ a, lookupEntry txB outB.source.ref = some (.issuance a))
      ∨ (∃ a, lookupEntry txB outB.source.ref = some (.spend a))
      ∨ ∃ a, lookupEntry txB outB.source.ref = some (.mux a))
    ∧ ∃ d, refDestinationOf txB outB.source = some d ∧ d.ref = 5 ∧ d.position = 0
        ∧ d.value = outB.source.value :=
  value_source_symmetry vTrue adH5 txB 5 (.output outB) 0 outB.source
    (by decide) (by decide) (by decide) (by decide)

/-- C5: in an accepted transaction, every reachable Spend has a SpentOutput
that is present as an Output (presence only: txSpend below is accepted even
though its spent Output's own ValueSource dangles), passes program
validation of the spent output's control program with the Spend's
Arguments, moves exactly the spent output's value forward, and has a
Destination whose matching source points back at the Spend. -/
theorem spend_validation :
    (∀ (vf : Program → List (List Nat) → Bool) (ah : AssetDefinition → Nat)
      (tx : Tx) (i : Nat) (s : Spend),
      validateTx vf ah tx = true → i ∈ reachableIDs tx →
      lookupEntry tx i = some (.spend s) →
      (∃ so, lookupEntry tx s.spentOutput = some (.output so)
        ∧ checkProgram vf tx.header.version so.controlProgram s.arguments = true
        ∧ so.source.value = s.destination.value)
      ∧ ∃ src, refSourceOf tx s.destination = some src ∧ src.ref = i
          ∧ src.position = 0 ∧ src.value = s.destination.value)
    ∧ (validateTx vTrue adH5 txSpend = true
      ∧ lookupEntry txSpend outPrev.source.ref = none) := by
  constructor
  · intro vf ah tx i s h hi he
    have hc := (checkEntry_true (validate_entry_check h i _ hi he)).2
    simp only [checkEntryRules, Bool.and_eq_true] at hc
    obtain ⟨hso, hdst⟩ := hc
    constructor
    · cases hl : lookupEntry tx s.spentOutput with
      | none => rw [hl] at hso; cases hso
      | some e' =>
        cases e' with
        | output so =>
          rw [hl] at hso
          simp only [Bool.and_eq_true, decide_eq_true_eq] at hso
          exact ⟨so, rfl, hso.1, hso.2⟩
        | header a => rw [hl] at hso; cases hso
        | retirement a => rw [hl] at hso; cases hso
        | spend a => rw [hl] at hso; cases hso
        | issuance a => rw [hl] at hso; cases hso
        | nonce a => rw [hl] at hso; cases hso
        | timerange a => rw [hl] at hso; cases hso
        | mux a => rw [hl] at hso; cases hso
    · exact checkValueDestination_spec hdst
  · exact ⟨by decide, by decide⟩

/-- Witness for C5 at the Spend of the concrete spend transaction. -/
theorem spend_validation_witness :
    (∃ so, lookupEntry txSpend spendS.spentOutput = some (.output so)
      ∧ checkProgram vTrue txSpend.header.version so.controlProgram spendS.arguments = true
      ∧ so.source.value = spendS.destination.value)
    ∧ ∃ src, refSourceOf txSpend spendS.destination = some src ∧ src.ref = 2
        ∧ src.position = 0 ∧ src.value = spendS.destination.value :=
  spend_validation.1 vTrue adH5 txSpend 2 spendS (by decide) (by decide) (by decide)

/-- C6: in an accepted transaction, every reachable Nonce passes program
validation with its Arguments, its Issuance witness pointer resolves to an
Issuance that is visitable by traversing Results and Sources from the header
and whose Anchor equals this Nonce's entry ID, and its TimeRange pointer
resolves to a TimeRange entry. -/
theorem nonce_validation (vf : Program → List (List Nat) → Bool)
    (ah : AssetDefinition → Nat) (tx : Tx) (i : Nat) (n : Nonce)
    (h : validateTx vf ah tx = true) (hi : i ∈ reachableIDs tx)
    (he : lookupEntry tx i = some (.nonce n)) :
    checkProgram vf tx.header.version n.program n.arguments = true
    ∧ (∃ iss, lookupEntry tx n.issuance = some (.issuance iss)
        ∧ n.issuance ∈ bodyReachableIDs tx ∧ iss.anchor = i)
    ∧ ∃ t, lookupEntry tx n.timeRange = some (.timerange t) := by
  have hc := (checkEntry_true (validate_entry_check h i _ hi he)).2
  simp only [checkEntryRules, Bool.and_eq_true] at hc
  obtain ⟨⟨hp, hiss⟩, htr⟩ := hc
  refine ⟨hp, ?_, ?_⟩
  · cases hl : lookupEntry tx n.issuance with
    | none => rw [hl] at hiss; cases hiss
    | some e' =>
      cases e' with
      | issuance iss =>
        rw [hl] at hiss
        simp only [Bool.and_eq_true, decide_eq_true_eq] at hiss
        exact ⟨iss, rfl, hiss.2, hiss.1⟩
      | header a => rw [hl] at hiss; cases hiss
      | output a => rw [hl] at hiss; cases hiss
      | retirement a => rw [hl] at hiss; cases hiss
      | spend a => rw [hl] at hiss; cases hiss
      | nonce a => rw [hl] at hiss; cases hiss
      | timerange a => rw [hl] at hiss; cases hiss
      | mux a => rw [hl] at hiss; cases hiss
  · cases hl : lookupEntry tx n.timeRange with
    | none => rw [hl] at htr; cases htr
    | some e' =>
      cases e' with
      | timerange t => exact ⟨t, rfl⟩
      | header a => rw [hl] at htr; cases htr
      | output a => rw [hl] at htr; cases htr
      | retirement a => rw [hl] at htr; cases htr
      | spend a => rw [hl] at htr; cases htr
      | issuance a => rw [hl] at htr; cases htr
      | nonce a => rw [hl] at htr; cases htr
      | mux a => rw [hl] at htr; cases htr

/-- Witness for C6 at the Nonce of the minimal issuance transaction. -/
theorem nonce_validation_witness :
    checkProgram vTrue txA.header.version nonceA.program nonceA.arguments = true
    ∧ (∃ iss, lookupEntry txA nonceA.issuance = some (.issuance iss)
        ∧ nonceA.issuance ∈ bodyReachableIDs txA ∧ iss.anchor = 2)
    ∧ ∃ t, lookupEntry txA nonceA.timeRange = some (.timerange t) :=
  nonce_validation vTrue adH5 txA 2 nonceA (by decide) (by decide) (by decide)

/-- C8: at transaction version 1, acceptance forces the header's ExtHash and
every reachable entry's ExtHash to be zero; contrapositively, any reachable
nonzero ExtHash at version 1 forces validation to reject. -/
theorem extension_discipline (vf : Program → List (List Nat) → Bool)
    (ah : AssetDefinition → Nat) (tx : Tx) (hv : tx.header.version = 1) :
    (validateTx vf ah tx = true →
      tx.header.extHash = 0
      ∧ ∀ i e, i ∈ reachableIDs tx → lookupEntry tx i = some e → extHashOf e = 0)
    ∧ (∀ i e, i ∈ reachableIDs tx → lookupEntry tx i = some e → extHashOf e ≠ 0 →
      validateTx vf ah tx = false) := by
  have main : validateTx vf ah tx = true →
      tx.header.extHash = 0
      ∧ ∀ i e, i ∈ reachableIDs tx → lookupEntry tx i = some e → extHashOf e = 0 := by
    intro h
    constructor
    · have hh : checkHeader tx = true := by
        unfold validateTx at h
        rw [Bool.and_eq_true] at h
        exact h.1
      unfold checkHeader at hh
      rw [Bool.and_eq_true] at hh
      rcases (Bool.or_eq_true _ _).mp hh.2 with h' | h'
      · exact absurd hv (by simpa using h')
      · simpa using h'
    · intro i e hi he
      exact (checkEntry_true (validate_entry_check h i e hi he)).1 hv
  refine ⟨main, fun i e hi he hne => ?_⟩
  cases hval : validateTx vf ah tx with
  | false => rfl
  | true => exact absurd ((main hval).2 i e hi he) hne

/-- Witness for C8: the accepted version-1 transaction txA has a zero
ExtHash on its reachable Output, and txBadExt, which differs only by a
nonzero ExtHash there, is rejected. -/
theorem extension_discipline_witness :
    extHashOf (Entry.output outA) = 0 ∧ validateTx vTrue adH5 txBadExt = false :=
  ⟨((extension_discipline vTrue adH5 txA (by decide)).1 (by decide)).2 4
      (Entry.output outA) (by decide) (by decide),
   (extension_discipline vTrue adH5 txBadExt (by decide)).2 4
      (Entry.output outBad) (by decide) (by decide) (by decide)⟩

/-- A reachable Spend whose SpentOutput is absent from the UTXO set makes
the removal pass, and hence the whole application, fail. -/
theorem applyRemovals_absent {ps : List (Nat × Entry)} {j : Nat} {s : Spend} :
    ∀ {u : List Nat}, (j, Entry.spend s) ∈ ps → s.spentOutput ∉ u →
      applyRemovals ps u = none := by
  induction ps with
  | nil => intro u hm _; cases hm
  | cons q rest ih =>
    intro u hm ha
    rcases List.mem_cons.mp hm with heq | hm2
    · rw [← heq]
      simp only [applyRemovals]
      rw [if_neg ha]
    · obtain ⟨a, e⟩ := q
      cases e with
      | spend s2 =>
        simp only [applyRemovals]
        split_ifs with h2
        · exact ih hm2 (fun hmem => ha (List.mem_of_mem_erase hmem))
        · rfl
      | header b => exact ih hm2 ha
      | output b => exact ih hm2 ha
      | retirement b => exact ih hm2 ha
      | issuance b => exact ih hm2 ha
      | nonce b => exact ih hm2 ha
      | timerange b => exact ih hm2 ha
      | mux b => exact ih hm2 ha

/-- A reachable Nonce whose ID is already in the Nonce set makes the
insertion pass fail. -/
theorem applyNonces_dup {ps : List (Nat × Entry)} {j : Nat} {n : Nonce} :
    ∀ {ns : List Nat}, (j, Entry.nonce n) ∈ ps → j ∈ ns →
      applyNonces ps ns = none := by
  induction ps with
  | nil => intro ns hm _; cases hm
  | cons q rest ih =>
    intro ns hm hj
    rcases List.mem_cons.mp hm with heq | hm2
    · rw [← heq]
      simp only [applyNonces]
      rw [if_pos hj]
    · obtain ⟨a, e⟩ := q
      cases e with
      | nonce n2 =>
        simp only [applyNonces]
        split_ifs with h2
        · rfl
        · exact ih hm2 (List.mem_cons_of_mem a hj)
      | header b => exact ih hm2 hj
      | output b => exact ih hm2 hj
      | retirement b => exact ih hm2 hj
      | spend b => exact ih hm2 hj
      | issuance b => exact ih hm2 hj
      | timerange b => exact ih hm2 hj
      | mux b => exact ih hm2 hj

/-- The nonce set only grows during a successful insertion pass. -/
theorem applyNonces_mono {ps : List (Nat × Entry)} :
    ∀ {ns ns' : List Nat}, applyNonces ps ns = some ns' → ∀ x ∈ ns, x ∈ ns' := by
  induction ps with
  | nil =>
    intro ns ns' h x hx
    simp only [applyNonces, Option.some.injEq] at h
    rw [← h]
    exact hx
  | cons q rest ih =>
    intro ns ns' h x hx
    obtain ⟨a, e⟩ := q
    cases e with
    | nonce n2 =>
      simp only [applyNonces] at h
      split_ifs at h with h2
      exact ih h x (List.mem_cons_of_mem a hx)
    | header b => exact ih h x hx
    | output b => exact ih h x hx
    | retirement b => exact ih h x hx
    | spend b => exact ih h x hx
    | issuance b => exact ih h x hx
    | timerange b => exact ih h x hx
    | mux b => exact ih h x hx

/-- After a successful insertion pass, every processed Nonce ID is in the
resulting nonce set. -/
theorem applyNonces_inserted {ps : List (Nat × Entry)} {j : Nat} {n : Nonce} :
    ∀ {ns ns' : List Nat}, applyNonces ps ns = some ns' →
      (j, Entry.nonce n) ∈ ps → j ∈ ns' := by
  induction ps with
  | nil => intro ns ns' _ hm; cases hm
  | cons q rest ih =>
    intro ns ns' h hm
    rcases List.mem_cons.mp hm with heq | hm2
    · rw [← heq] at h
      simp only [applyNonces] at h
      split_ifs at h with h2
      exact applyNonces_mono h j (List.mem_cons_self j ns)
    · obtain ⟨a, e⟩ := q
      cases e with
      | nonce n2 =>
        simp only [applyNonces] at h
        split_ifs at h with h2
        exact ih h hm2
      | header b => exact ih h hm2
      | output b => exact ih h hm2
      | retirement b => exact ih h hm2
      | spend b => exact ih h hm2
      | issuance b => exact ih h hm2
      | timerange b => exact ih h hm2
      | mux b => exact ih h hm2

/-- C7: state application fails (with the StateError outcome, none, leaving
no effect) whenever a reachable Spend's SpentOutput ID is absent from the
UTXO set or a reachable Nonce's ID is already in the Nonce set; and after a
successful application of a transaction containing a reachable Nonce,
re-applying the same transaction against the mutated state fails. -/
theorem state_application_spec :
    (∀ (ts : Nat) (tx : Tx) (st : ChainState) (j : Nat) (s : Spend),
      (j, Entry.spend s) ∈ reachablePairs tx → s.spentOutput ∉ st.utxos →
      applyTx ts tx st = none)
    ∧ (∀ (ts : Nat) (tx : Tx) (st : ChainState) (j : Nat) (n : Nonce),
      (j, Entry.nonce n) ∈ reachablePairs tx → j ∈ st.nonces →
      applyTx ts tx st = none)
    ∧ (∀ (ts ts2 : Nat) (tx : Tx) (st st2 : ChainState) (j : Nat) (n : Nonce),
      applyTx ts tx st = some st2 → (j, Entry.nonce n) ∈ reachablePairs tx →
      applyTx ts2 tx st2 = none) := by
  have hnon : ∀ (ts : Nat) (tx : Tx) (st : ChainState) (j : Nat) (n : Nonce),
      (j, Entry.nonce n) ∈ reachablePairs tx → j ∈ st.nonces →
      applyTx ts tx st = none := by
    intro ts tx st j n hm hj
    unfold applyTx
    split_ifs with htb
    · cases hr : applyRemovals (reachablePairs tx) st.utxos with
      | none => rfl
      | some u => rw [applyNonces_dup hm hj]
    · rfl
  refine ⟨?_, hnon, ?_⟩
  · intro ts tx st j s hm ha
    unfold applyTx
    split_ifs with htb
    · rw [applyRemovals_absent hm ha]
    · rfl
  · intro ts ts2 tx st st2 j n happ hm
    unfold applyTx at happ
    split_ifs at happ with htb
    cases hr : applyRemovals (reachablePairs tx) st.utxos with
    | none => rw [hr] at happ; cases happ
    | some u =>
      rw [hr] at happ
      cases hn : applyNonces (reachablePairs tx) st.nonces with
      | none => rw [hn] at happ; cases happ
      | some ns =>
        rw [hn] at happ
        simp only [Option.some.injEq] at happ
        have hjm : j ∈ st2.nonces := by
          rw [← happ]
          exact applyNonces_inserted hn hm
        exact hnon ts2 tx st2 j n hm hjm

/-- Witness for C7: the spend transaction fails against an empty UTXO set,
the issuance transaction fails against a state already holding its Nonce ID,
and re-applying the issuance transaction after its successful application
fails. -/
theorem state_application_spec_witness :
    applyTx 1 txSpend st0 = none
    ∧ applyTx 1 txA ⟨[], [2]⟩ = none
    ∧ applyTx 1 txA ⟨[4], [2]⟩ = none :=
  ⟨state_application_spec.1 1 txSpend st0 2 spendS (by decide) (by decide),
   state_application_spec.2.1 1 txA ⟨[], [2]⟩ 2 nonceA (by decide) (by decide),
   state_application_spec.2.2 1 1 txA st0 ⟨[4], [2]⟩ 2 nonceA (by decide) (by decide)⟩


end Chain
